import Mathlib

/-
Verification of the metrics-derivation, caching and failover core of the
Mambo club-tracking bot, as a shallow embedding of the Python source.
Machine integers in the source are unbounded Python ints, modelled as Int;
nullable values are modelled as Option; the pandas dataframe computations
are modelled per member as list traversals in day order.
-/

namespace Mambo

/-! ## Daily-gain derivation (bot-hosting.py, calculate_daily_gains_from_cumulative)

The source loops over adjacent pairs of the cumulative list.  A zero
cumulative value encodes an unobserved day (member not joined yet, or member
left), per the comments in the source. -/

def calculate_daily_gains_from_cumulative : List Int → List (Option Int)
  | [] => []
  | [_] => []
  | c0 :: c1 :: rest =>
      (if c0 = 0 then none
       else if c1 = 0 then none
       else if 0 ≤ c1 - c0 then some (c1 - c0) else none)
        :: calculate_daily_gains_from_cumulative (c1 :: rest)

/-! ## Simplified daily converter (bot-hosting.py, calculate_daily_from_cumulative)

The first element is taken as that day gain when positive; later elements are
forward differences clamped at zero, and zero when the day total is not
positive. -/

def cdfcTail : Int → List Int → List Int
  | _, [] => []
  | prev, t :: rest =>
      (if 0 < t ∧ 0 ≤ prev then max 0 (t - prev) else 0) :: cdfcTail t rest

def calculate_daily_from_cumulative : List Int → List Int
  | [] => []
  | t :: rest => (if 0 < t then t else 0) :: cdfcTail t rest

/-! ## Behind-target classification (bot-hosting.py, _load_data_for_command)

The dataframe is sorted by (Name, Day) and the slight-behind flag, the
consecutive-day counter and the final behind flag are computed with
shift/cumsum over consecutive rows.  Restricted to one member this is the
following traversal of the CarryOver column in day order; the source
consults only the row order, never the Day values themselves. -/

def is_slightly_behind (carryOver : Int) : Bool :=
  decide (carryOver < 0) && decide (-700000 ≤ carryOver)

def nextStreak (prev : Nat) (c : Int) : Nat :=
  if is_slightly_behind c then prev + 1 else 0

def streaksFrom : Nat → List Int → List Nat
  | _, [] => []
  | prev, c :: rest => nextStreak prev c :: streaksFrom (nextStreak prev c) rest

def consecutive_slight_behind_days (carries : List Int) : List Nat :=
  streaksFrom 0 carries

def is_behind (carryOver : Int) (streak : Nat) : Bool :=
  decide (carryOver < -700000) || (is_slightly_behind carryOver && decide (5 < streak))

def behindFlags (carries : List Int) : List Bool :=
  List.zipWith is_behind carries (consecutive_slight_behind_days carries)

/-- Per-member behind flags for rows carrying their day index: the source
computation reads only the CarryOver column of the day-sorted rows. -/
def memberBehindFlags (rows : List (Nat × Int)) : List Bool :=
  behindFlags (rows.map (fun r => r.2))

/-- Modelled from the claim wording, for comparison with the source
computation: the consecutive counter additionally resets upon a break in
observation, that is, when a row day does not directly follow the previous
observed day.  The source version above ignores the day column. -/
def claimStreaksFrom : Nat → Nat → List (Nat × Int) → List Nat
  | _, _, [] => []
  | prevDay, prevStreak, (d, c) :: rest =>
      nextStreak (if d = prevDay + 1 then prevStreak else 0) c
        :: claimStreaksFrom d (nextStreak (if d = prevDay + 1 then prevStreak else 0) c) rest

def claimBehindFlags (rows : List (Nat × Int)) : List Bool :=
  List.zipWith (fun r s => is_behind r.2 s) rows (claimStreaksFrom 0 0 rows)

def streakAt (carries : List Int) (i : Nat) : Nat :=
  (consecutive_slight_behind_days carries).getD i 0

def behindAt (carries : List Int) (i : Nat) : Bool :=
  (behindFlags carries).getD i false

/-! ## Yui logic and data sheet rows (bot-hosting.py, apply_yui_logic and
calculate_data_sheet_rows)

The start day of a member is the first day whose gain is non-null and
positive, defaulting to day 1; the per-day target accrues one quota per day
from the start day on, via a running counter in the row loop. -/

def isPositiveGain : Option Int → Bool
  | some v => decide (0 < v)
  | none => false

def findStartAux : List (Option Int) → Nat → Option Nat
  | [], _ => none
  | g :: rest, i => if isPositiveGain g then some (i + 1) else findStartAux rest (i + 1)

def find_start_day (gains : List (Option Int)) : Nat :=
  (findStartAux gains 0).getD 1

def apply_yui_logic (daily_gains : List (Option Int)) (target_per_day : Int) :
    Nat × Int × Bool :=
  if daily_gains = [] then (1, target_per_day, false)
  else
    match findStartAux daily_gains 0 with
    | none => (1, target_per_day, false)
    | some start_day =>
        (start_day, target_per_day * ((daily_gains.length - start_day + 1 : Nat) : Int),
          decide (1 < start_day))

structure DataRow where
  name : String
  day : Nat
  total_fans : Int
  daily : Int
  target : Int
  carryover : Int
deriving DecidableEq

def dummyRow : DataRow := ⟨"", 0, 0, 0, 0, 0⟩

/-- Total fans for a day: the sum of the non-null, non-negative gains of the
prefix of the gains list up to that day. -/
def validGainSum (gains : List (Option Int)) : Int :=
  ((gains.filterMap id).filter (fun g => decide (0 ≤ g))).sum

def dailyOf : Option Int → Int
  | some g => if 0 ≤ g then g else 0
  | none => 0

def dataSheetRowsAux (name : String) (gains : List (Option Int)) (tpd : Int)
    (start_day : Nat) : Nat → Nat → Nat → List DataRow
  | 0, _, _ => []
  | remaining + 1, day_idx, counter =>
      (⟨name, day_idx + 1, validGainSum (gains.take (day_idx + 1)),
        dailyOf (gains.getD day_idx none),
        (if start_day ≤ day_idx + 1 then ((counter + 1 : Nat) : Int) * tpd else 0),
        validGainSum (gains.take (day_idx + 1)) -
          (if start_day ≤ day_idx + 1 then ((counter + 1 : Nat) : Int) * tpd else 0)⟩ : DataRow)
        :: dataSheetRowsAux name gains tpd start_day remaining (day_idx + 1)
            (if start_day ≤ day_idx + 1 then counter + 1 else counter)

def calculate_data_sheet_rows (trainer_name : String) (daily_gains : List (Option Int))
    (cumulative_fans : List Int) (target_per_day : Int) (max_days : Option Nat) :
    List DataRow :=
  if daily_gains = [] ∨ cumulative_fans = [] then []
  else
    dataSheetRowsAux trainer_name daily_gains target_per_day (find_start_day daily_gains)
      (match max_days with
        | some m => min daily_gains.length m
        | none => daily_gains.length) 0 0

/-! ## Membership check (bot-hosting.py, is_member_in_club) -/

def is_member_in_club (daily_gains : List (Option Int)) (max_day : Nat) : Bool :=
  if daily_gains = [] ∨ max_day = 0 then false
  else if daily_gains.length < max_day then false
  else (daily_gains.getD (max_day - 1) none).isSome

/-! ## Tiered cache (bot-hosting.py, SmartCache)

The in-memory dict and the cache directory on disk are each modelled as an
association list from key to (payload, timestamp); dataframe payloads are
abstracted to Nat.  Dict assignment and file deletion become insert and
erase on the association list. -/

def cacheLookup (k : String) : List (String × Nat × Int) → Option (Nat × Int)
  | [] => none
  | e :: rest => if e.1 = k then some e.2 else cacheLookup k rest

def cacheErase (k : String) : List (String × Nat × Int) → List (String × Nat × Int)
  | [] => []
  | e :: rest => if e.1 = k then cacheErase k rest else e :: cacheErase k rest

def cacheInsert (k : String) (v : Nat × Int) (l : List (String × Nat × Int)) :
    List (String × Nat × Int) :=
  (k, v) :: cacheErase k l

structure CacheState where
  memory : List (String × Nat × Int)
  disk : List (String × Nat × Int)
  ttl : Int
deriving DecidableEq

def SmartCache.invalidate (st : CacheState) (key : String) : CacheState :=
  ⟨cacheErase key st.memory, cacheErase key st.disk, st.ttl⟩

def SmartCache.get (st : CacheState) (key : String) (now : Int) :
    Option (Nat × Int) × CacheState :=
  match cacheLookup key st.memory with
  | some (df, ts) =>
      if now - ts < st.ttl then (some (df, ts), st)
      else (none, SmartCache.invalidate st key)
  | none =>
      match cacheLookup key st.disk with
      | some (df, ts) =>
          if now - ts < st.ttl then
            (some (df, ts), ⟨cacheInsert key (df, ts) st.memory, st.disk, st.ttl⟩)
          else (none, ⟨st.memory, cacheErase key st.disk, st.ttl⟩)
      | none => (none, st)

def SmartCache.set (st : CacheState) (key : String) (df : Nat) (now : Int) : CacheState :=
  ⟨cacheInsert key (df, now) st.memory, cacheInsert key (df, now) st.disk, st.ttl⟩

/-- One logical view of the two tiers: the memory entry when present, the
disk entry otherwise. -/
def tieredLookup (st : CacheState) (k : String) : Option (Nat × Int) :=
  match cacheLookup k st.memory with
  | some v => some v
  | none => cacheLookup k st.disk

/-! ## Startup load (bot-hosting.py, SmartCache._load_from_disk)

Each cache file holds an optional key (a missing or empty key is skipped,
per the Python truthiness test), a timestamp and a payload; the loader
walks the files and assigns each keyed entry into the in-memory dict. -/

structure DiskFile where
  fileKey : Option String
  timestamp : Int
  payload : Nat
deriving DecidableEq

def loadFileStep (cache : List (String × Nat × Int)) (f : DiskFile) :
    List (String × Nat × Int) :=
  match f.fileKey with
  | some k => if k = "" then cache else cacheInsert k (f.payload, f.timestamp) cache
  | none => cache

def load_from_disk (files : List DiskFile) : List (String × Nat × Int) :=
  files.foldl loadFileStep []

/-- The last file of the list carrying the given key, if any: with
duplicate keys the later assignment wins in the dict. -/
def lastFileFor (k : String) : List DiskFile → Option DiskFile
  | [] => none
  | f :: rest =>
      match lastFileFor k rest with
      | some g => some g
      | none => if f.fileKey = some k then some f else none

/-! ## Failover coordinator (hybrid_database_wrapper.py, HybridDatabaseManager)

The availability state is the trio of fields the class mutates; time is an
integer count of seconds; one get_stats_data call is modelled as a function
of the state, the clock, the use_supabase flag and the outcome the primary
fetch would have (success with a payload, timeout, rate limit, auth error
or other error). -/

structure AvailabilityState where
  sheets_available : Bool
  last_sheets_failure : Option Int
  retry_interval : Int
deriving DecidableEq

def initHybridState : AvailabilityState := ⟨true, none, 300⟩

def shouldRetrySheets (st : AvailabilityState) (now : Int) : Bool :=
  if st.sheets_available then false
  else
    match st.last_sheets_failure with
    | none => true
    | some t => decide (st.retry_interval ≤ now - t)

def markSheetsFailure (st : AvailabilityState) (now : Int) : AvailabilityState :=
  ⟨false, some now, st.retry_interval⟩

def markSheetsSuccess (st : AvailabilityState) : AvailabilityState :=
  ⟨true, none, st.retry_interval⟩

inductive SheetsOutcome where
  | success (df : Nat)
  | timeout
  | rateLimit
  | authError
  | otherError
deriving DecidableEq

def get_data_with_timeout (st : AvailabilityState) (now : Int) (o : SheetsOutcome) :
    Option Nat × AvailabilityState :=
  match o with
  | .success df => (some df, markSheetsSuccess st)
  | .timeout => (none, markSheetsFailure st now)
  | .rateLimit => (none, markSheetsFailure st now)
  | .authError => (none, markSheetsFailure st now)
  | .otherError => (none, markSheetsFailure st now)

inductive StatsSource where
  | sheets (df : Nat)
  | supabase
deriving DecidableEq

structure StatsRead where
  state : AvailabilityState
  primaryProbes : Nat
  source : StatsSource
deriving DecidableEq

def get_stats_data (st : AvailabilityState) (now : Int) (use_supabase : Bool)
    (o : SheetsOutcome) : StatsRead :=
  if use_supabase = false ∧ (st.sheets_available = true ∨ shouldRetrySheets st now = true) then
    match get_data_with_timeout st now o with
    | (some df, st2) => ⟨st2, 1, .sheets df⟩
    | (none, st2) => ⟨st2, 1, .supabase⟩
  else ⟨st, 0, .supabase⟩

/-! ## Data load orchestrator (bot-hosting.py, _load_data_for_command)

The retry loop is modelled by the list of outcomes its successive fetch
attempts would have (at most max_retries entries; backoff sleeps are
irrelevant to the claims); the legacy json cache file is an optional
(payload, timestamp); the numeric post-processing of a fresh dataframe is
abstracted away. -/

inductive AttemptResult where
  | success (df : Nat)
  | emptySheet
  | retryableError
  | fatalError
deriving DecidableEq

inductive FetchLoopResult where
  | gotDf (df : Nat) (attemptsUsed : Nat)
  | raisedEmpty (attemptsUsed : Nat)
  | raisedFatal (attemptsUsed : Nat)
  | exhausted (attemptsUsed : Nat)
deriving DecidableEq

def fetchLoop : List AttemptResult → Nat → FetchLoopResult
  | [], used => .exhausted used
  | a :: rest, used =>
      match a with
      | .success df => .gotDf df (used + 1)
      | .emptySheet => .raisedEmpty (used + 1)
      | .fatalError => .raisedFatal (used + 1)
      | .retryableError => fetchLoop rest (used + 1)

inductive LoadOutcome where
  | fresh (df : Nat)
  | cached (df : Nat) (ts : Int)
  | legacy (df : Nat) (ts : Int)
  | raisedEmpty
  | raisedFatal
  | raisedNoData
deriving DecidableEq

def load_data_for_command (attempts : List AttemptResult) (cache : CacheState)
    (key : String) (legacy : Option (Nat × Int)) (now : Int) : LoadOutcome × CacheState :=
  match fetchLoop attempts 0 with
  | .gotDf df _ => (.fresh df, SmartCache.set cache key df now)
  | .raisedEmpty _ => (.raisedEmpty, cache)
  | .raisedFatal _ => (.raisedFatal, cache)
  | .exhausted used =>
      if used = 0 then (.raisedNoData, cache)
      else
        match SmartCache.get cache key now with
        | (some (df, ts), cache2) => (.cached df ts, cache2)
        | (none, cache2) =>
            match legacy with
            | some (df, ts) => (.legacy df ts, cache2)
            | none => (.raisedNoData, cache2)

/-! ## Theorems -/

theorem daily_gains_length : ∀ c : List Int,
    (calculate_daily_gains_from_cumulative c).length = c.length - 1
  | [] => rfl
  | [_] => rfl
  | c0 :: c1 :: rest => by
      have ih := daily_gains_length (c1 :: rest)
      simp only [calculate_daily_gains_from_cumulative, List.length_cons] at ih ⊢
      omega

theorem daily_gains_getD : ∀ (c : List Int) (i : Nat), i + 1 < c.length →
    (calculate_daily_gains_from_cumulative c).getD i none =
      (if c.getD i 0 ≠ 0 ∧ c.getD (i + 1) 0 ≠ 0 ∧ 0 ≤ c.getD (i + 1) 0 - c.getD i 0
       then some (c.getD (i + 1) 0 - c.getD i 0) else none)
  | [], i, h => by simp at h
  | [_], i, h => by simp at h
  | c0 :: c1 :: rest, 0, _ => by
      simp only [calculate_daily_gains_from_cumulative, List.getD_cons_zero,
        List.getD_cons_succ]
      split_ifs <;> simp_all
  | c0 :: c1 :: rest, i + 1, h => by
      have ih := daily_gains_getD (c1 :: rest) i (by
        simp only [List.length_cons] at h ⊢; omega)
      simpa [calculate_daily_gains_from_cumulative] using ih

/-- C1: for a cumulative list, the derived gain at index i is the forward
difference cumulative[i+1] - cumulative[i] exactly when both days are
observed (nonzero in the zero-as-unobserved encoding of this function) and
the difference is non-negative, and null otherwise; the result has one
entry fewer than the input (so it is empty for fewer than two days). -/
theorem daily_gains_from_cumulative_spec (c : List Int) :
    (calculate_daily_gains_from_cumulative c).length = c.length - 1 ∧
    ∀ i, i + 1 < c.length →
      (calculate_daily_gains_from_cumulative c).getD i none =
        (if c.getD i 0 ≠ 0 ∧ c.getD (i + 1) 0 ≠ 0 ∧ 0 ≤ c.getD (i + 1) 0 - c.getD i 0
         then some (c.getD (i + 1) 0 - c.getD i 0) else none) :=
  ⟨daily_gains_length c, fun i h => daily_gains_getD c i h⟩

theorem daily_gains_from_cumulative_spec_witness :
    (calculate_daily_gains_from_cumulative [2, 5, 0]).getD 0 none = some 3 := by
  rw [(daily_gains_from_cumulative_spec [2, 5, 0]).2 0 (by decide)]
  decide

/-- C9: the simplified converter on the documented example list yields the
documented daily list: the first observed total is taken whole, later
entries are day-over-day differences. -/
theorem daily_from_cumulative_example :
    calculate_daily_from_cumulative [0, 0, 238644810, 242678516, 245877460] =
      [0, 0, 238644810, 4033706, 3198944] := by
  decide

theorem streaksFrom_getD_succ : ∀ (carries : List Int) (p i : Nat), i + 1 < carries.length →
    (streaksFrom p carries).getD (i + 1) 0 =
      nextStreak ((streaksFrom p carries).getD i 0) (carries.getD (i + 1) 0)
  | [], _, _, h => by simp at h
  | [_], _, _, h => by simp at h
  | _ :: _ :: _, _, 0, _ => rfl
  | c :: c2 :: rest, p, i + 1, h => by
      have ih := streaksFrom_getD_succ (c2 :: rest) (nextStreak p c) i (by
        simp only [List.length_cons] at h ⊢; omega)
      simpa [streaksFrom] using ih

theorem zipWith_behind_getD : ∀ (carries : List Int) (p i : Nat), i < carries.length →
    (List.zipWith is_behind carries (streaksFrom p carries)).getD i false =
      is_behind (carries.getD i 0) ((streaksFrom p carries).getD i 0)
  | [], _, _, h => by simp at h
  | _ :: _, _, 0, _ => rfl
  | c :: rest, p, i + 1, h => by
      have ih := zipWith_behind_getD rest (nextStreak p c) i (by
        simp only [List.length_cons] at h; omega)
      simpa [streaksFrom] using ih

/-- C2 (amended): for a member dataset in day order, the slight-behind flag
holds exactly when -700000 <= carry_over < 0; the consecutive counter starts
at 1 on a first slightly-behind row, increments across consecutive rows of
the member while the flag holds, and resets to zero the moment the member is
not slightly-behind -- it does not reset on a gap in the day indices of the
rows; is_behind holds exactly when carry_over < -700000 or the member is
slightly behind with a streak above 5; on six consecutive days at -650000
is_behind is false on days 1-5 and true on day 6, and a seventh day at +100
resets the streak to 0 and is_behind to false. -/
theorem behind_classification_spec :
    (∀ c : Int, is_slightly_behind c = true ↔ -700000 ≤ c ∧ c < 0) ∧
    (∀ (c : Int) (rest : List Int),
        streakAt (c :: rest) 0 = if is_slightly_behind c then 1 else 0) ∧
    (∀ (carries : List Int) (i : Nat), i + 1 < carries.length →
        streakAt carries (i + 1) =
          if is_slightly_behind (carries.getD (i + 1) 0) then streakAt carries i + 1 else 0) ∧
    (∀ (carries : List Int) (i : Nat), i < carries.length →
        (behindAt carries i = true ↔
          carries.getD i 0 < -700000 ∨
            (is_slightly_behind (carries.getD i 0) = true ∧ 5 < streakAt carries i))) ∧
    (behindFlags [-650000, -650000, -650000, -650000, -650000, -650000, 100] =
        [false, false, false, false, false, true, false] ∧
      consecutive_slight_behind_days [-650000, -650000, -650000, -650000, -650000, -650000, 100] =
        [1, 2, 3, 4, 5, 6, 0]) := by
  refine ⟨?_, ?_, ?_, ?_, by decide, by decide⟩
  · intro c
    simp only [is_slightly_behind, Bool.and_eq_true, decide_eq_true_eq]
    tauto
  · intro c rest
    rfl
  · intro carries i h
    simpa [streakAt, consecutive_slight_behind_days, nextStreak] using
      streaksFrom_getD_succ carries 0 i h
  · intro carries i h
    have := zipWith_behind_getD carries 0 i h
    simp only [behindAt, behindFlags, consecutive_slight_behind_days, streakAt, this,
      is_behind, Bool.or_eq_true, Bool.and_eq_true, decide_eq_true_eq]

theorem behind_classification_spec_witness :
    is_slightly_behind (-5) = true :=
  (behind_classification_spec.1 (-5)).mpr (by norm_num)

/-- C2 counterexample: on a member whose day-sorted rows all carry -650000
but skip day 6, the source computation keeps the streak running across the
gap and marks the sixth row (day 7) behind, while the claim wording, which
resets the counter at a break in observation, yields not-behind there. -/
theorem behind_streak_ignores_observation_gap :
    memberBehindFlags
        [(1, -650000), (2, -650000), (3, -650000), (4, -650000), (5, -650000), (7, -650000)] =
      [false, false, false, false, false, true] ∧
    claimBehindFlags
        [(1, -650000), (2, -650000), (3, -650000), (4, -650000), (5, -650000), (7, -650000)] =
      [false, false, false, false, false, false] := by
  decide

theorem findStartAux_spec : ∀ (gains : List (Option Int)) (i m : Nat), m < gains.length →
    isPositiveGain (gains.getD m none) = true →
    (∀ j, j < m → isPositiveGain (gains.getD j none) = false) →
    findStartAux gains i = some (i + m + 1)
  | [], _, _, h, _, _ => by simp at h
  | g :: rest, i, 0, _, hpos, _ => by
      simp only [List.getD_cons_zero] at hpos
      simp [findStartAux, hpos]
  | g :: rest, i, m + 1, h, hpos, hfirst => by
      have hg : isPositiveGain g = false := by
        simpa using hfirst 0 (Nat.succ_pos m)
      have ih := findStartAux_spec rest (i + 1) m
        (by simp only [List.length_cons] at h; omega)
        (by simpa using hpos)
        (fun j hj => by simpa using hfirst (j + 1) (by omega))
      simp only [findStartAux, hg, Bool.false_eq_true, if_false, ih]
      exact congrArg some (by omega)

theorem find_start_day_eq (gains : List (Option Int)) (d : Nat) (hd : 1 ≤ d)
    (hlen : d ≤ gains.length)
    (hpos : isPositiveGain (gains.getD (d - 1) none) = true)
    (hfirst : ∀ j, j < d - 1 → isPositiveGain (gains.getD j none) = false) :
    find_start_day gains = d := by
  have h := findStartAux_spec gains 0 (d - 1) (by omega) hpos hfirst
  simp only [find_start_day, h, Option.getD_some]
  omega

theorem dataSheetRowsAux_target (name : String) (gains : List (Option Int)) (tpd : Int)
    (sd : Nat) (hsd : 1 ≤ sd) : ∀ (n i0 j : Nat), j < n →
    ((dataSheetRowsAux name gains tpd sd n i0 (i0 + 1 - sd)).getD j dummyRow).target =
      (if sd ≤ i0 + j + 1 then ((i0 + j + 2 - sd : Nat) : Int) * tpd else 0)
  | 0, _, _, h => by omega
  | n + 1, i0, 0, _ => by
      simp only [dataSheetRowsAux, List.getD_cons_zero, Nat.add_zero]
      split_ifs with hle
      · rw [(by omega : i0 + 1 - sd + 1 = i0 + 2 - sd)]
      · rfl
  | n + 1, i0, j + 1, h => by
      have hc : (if sd ≤ i0 + 1 then i0 + 1 - sd + 1 else i0 + 1 - sd) = i0 + 1 + 1 - sd := by
        split_ifs <;> omega
      have ih := dataSheetRowsAux_target name gains tpd sd hsd n (i0 + 1) j (by omega)
      simp only [dataSheetRowsAux, List.getD_cons_succ]
      rw [hc, ih, (by omega : i0 + 1 + j + 1 = i0 + (j + 1) + 1),
        (by omega : i0 + 1 + j + 2 = i0 + (j + 1) + 2)]

/-- C3: for a member whose first positive, non-null gain is on day d, every
produced row for a day k at or after d carries effective target
quota_per_day times (k - d + 1), and every row for a day before d carries
target 0; with quota 10000 and first positive gain on day 5, the target of
day 5 is 10000. -/
theorem effective_target_yui_spec (name : String) (gains : List (Option Int))
    (cum : List Int) (tpd : Int) (d : Nat)
    (hcum : cum ≠ []) (hd : 1 ≤ d) (hlen : d ≤ gains.length)
    (hpos : isPositiveGain (gains.getD (d - 1) none) = true)
    (hfirst : ∀ j, j < d - 1 → isPositiveGain (gains.getD j none) = false) :
    (∀ k, d ≤ k → k ≤ gains.length →
        ((calculate_data_sheet_rows name gains cum tpd none).getD (k - 1) dummyRow).target =
          ((k - d + 1 : Nat) : Int) * tpd) ∧
    (∀ k, 1 ≤ k → k < d →
        ((calculate_data_sheet_rows name gains cum tpd none).getD (k - 1) dummyRow).target
          = 0) := by
  have hne : gains ≠ [] := by
    intro hnil
    rw [hnil] at hlen
    simp at hlen
    omega
  have hsd : find_start_day gains = d := find_start_day_eq gains d hd hlen hpos hfirst
  have hrows : calculate_data_sheet_rows name gains cum tpd none =
      dataSheetRowsAux name gains tpd d gains.length 0 0 := by
    simp only [calculate_data_sheet_rows, hsd]
    rw [if_neg (by simp [hne, hcum])]
  constructor
  · intro k hdk hk
    have key := dataSheetRowsAux_target name gains tpd d hd gains.length 0 (k - 1) (by omega)
    rw [(by omega : (0 : Nat) + 1 - d = 0)] at key
    rw [(by omega : (0 : Nat) + (k - 1) + 1 = k),
      (by omega : (0 : Nat) + (k - 1) + 2 - d = k - d + 1)] at key
    rw [hrows, key, if_pos hdk]
  · intro k hk1 hkd
    have key := dataSheetRowsAux_target name gains tpd d hd gains.length 0 (k - 1) (by omega)
    rw [(by omega : (0 : Nat) + 1 - d = 0)] at key
    rw [(by omega : (0 : Nat) + (k - 1) + 1 = k)] at key
    rw [hrows, key, if_neg (by omega)]

theorem effective_target_yui_spec_witness :
    ((calculate_data_sheet_rows "m" [none, none, none, none, some 5000]
        [0, 0, 0, 0, 5000] 10000 none).getD 4 dummyRow).target = 10000 := by
  have h := (effective_target_yui_spec "m" [none, none, none, none, some 5000]
      [0, 0, 0, 0, 5000] 10000 5 (by decide) (by decide) (by decide) (by decide)
      (fun j hj => by
        have hj4 : j < 4 := by omega
        interval_cases j <;> decide)).1 5 (by decide) (by decide)
  norm_num at h
  exact h

/-- C4: with the dataset-wide maximum day index D at least 1, a member is
classified as still in the club exactly when the gains list has a non-null
entry at day D; a shorter list, or a null at day D, classifies the member as
having left, while a zero-valued observation counts as present. -/
theorem member_in_club_iff (gains : List (Option Int)) (D : Nat) (hD : 1 ≤ D) :
    (is_member_in_club gains D = true ↔
      D ≤ gains.length ∧ (gains.getD (D - 1) none).isSome = true) := by
  unfold is_member_in_club
  split_ifs with h1 h2
  · rcases h1 with h | h
    · subst h
      simp only [List.length_nil, Bool.false_eq_true, false_iff, not_and]
      intro hle
      omega
    · omega
  · simp only [Bool.false_eq_true, false_iff, not_and]
    intro hle
    omega
  · have hle : D ≤ gains.length := by omega
    simp [hle]

theorem member_in_club_iff_witness :
    is_member_in_club [some 5, some 0] 2 = true :=
  (member_in_club_iff [some 5, some 0] 2 (by decide)).mpr (by decide)

theorem cacheLookup_erase_self (key : String) :
    ∀ l : List (String × Nat × Int), cacheLookup key (cacheErase key l) = none
  | [] => rfl
  | e :: rest => by
      by_cases he : e.1 = key
      · simpa [cacheErase, he] using cacheLookup_erase_self key rest
      · simpa [cacheErase, cacheLookup, he] using cacheLookup_erase_self key rest

theorem cacheLookup_erase_ne (k key : String) (hne : k ≠ key) :
    ∀ l : List (String × Nat × Int), cacheLookup k (cacheErase key l) = cacheLookup k l
  | [] => rfl
  | e :: rest => by
      have hkn : key ≠ k := fun hh => hne hh.symm
      by_cases he : e.1 = key
      · simpa [cacheErase, cacheLookup, he, hkn] using cacheLookup_erase_ne k key hne rest
      · by_cases hek : e.1 = k
        · simp [cacheErase, cacheLookup, he, hek, hne]
        · simpa [cacheErase, cacheLookup, he, hek] using cacheLookup_erase_ne k key hne rest

theorem cacheLookup_insert_self (key : String) (v : Nat × Int)
    (l : List (String × Nat × Int)) : cacheLookup key (cacheInsert key v l) = some v := by
  simp [cacheInsert, cacheLookup]

theorem cacheLookup_insert_ne (k key : String) (hne : k ≠ key) (v : Nat × Int)
    (l : List (String × Nat × Int)) :
    cacheLookup k (cacheInsert key v l) = cacheLookup k l := by
  have hk : key ≠ k := fun hh => hne hh.symm
  simp [cacheInsert, cacheLookup, hk, cacheLookup_erase_ne k key hne l]

/-- C8: a cache get never returns an entry whose age reaches the TTL (age
exactly equal to the TTL counts as expired), and when the entry it finds,
in memory or on disk, is expired, the entry is removed from both tiers and
none is returned. -/
theorem cache_get_ttl_spec (st : CacheState) (key : String) (now : Int) :
    (∀ df ts, (SmartCache.get st key now).1 = some (df, ts) → now - ts < st.ttl) ∧
    (∀ df ts, cacheLookup key st.memory = some (df, ts) → st.ttl ≤ now - ts →
        (SmartCache.get st key now).1 = none ∧
        cacheLookup key (SmartCache.get st key now).2.memory = none ∧
        cacheLookup key (SmartCache.get st key now).2.disk = none) ∧
    (∀ df ts, cacheLookup key st.memory = none → cacheLookup key st.disk = some (df, ts) →
        st.ttl ≤ now - ts →
        (SmartCache.get st key now).1 = none ∧
        cacheLookup key (SmartCache.get st key now).2.memory = none ∧
        cacheLookup key (SmartCache.get st key now).2.disk = none) := by
  refine ⟨?_, ?_, ?_⟩
  · intro df ts h
    rcases hm : cacheLookup key st.memory with _ | ⟨df0, ts0⟩
    · rcases hd : cacheLookup key st.disk with _ | ⟨df1, ts1⟩
      · simp [SmartCache.get, hm, hd] at h
      · by_cases hlt : now - ts1 < st.ttl
        · simp only [SmartCache.get, hm, hd, if_pos hlt] at h
          obtain ⟨-, hts⟩ := Prod.mk.injEq .. ▸ (Option.some.injEq .. ▸ h)
          omega
        · simp [SmartCache.get, hm, hd, if_neg hlt] at h
    · by_cases hlt : now - ts0 < st.ttl
      · simp only [SmartCache.get, hm, if_pos hlt] at h
        obtain ⟨-, hts⟩ := Prod.mk.injEq .. ▸ (Option.some.injEq .. ▸ h)
        omega
      · simp [SmartCache.get, hm, if_neg hlt] at h
  · intro df ts hm hexp
    have hlt : ¬ now - ts < st.ttl := by omega
    simp [SmartCache.get, hm, hlt, SmartCache.invalidate, cacheLookup_erase_self]
  · intro df ts hm hd hexp
    have hlt : ¬ now - ts < st.ttl := by omega
    simp [SmartCache.get, hm, hd, hlt, cacheLookup_erase_self]

theorem cache_get_ttl_spec_witness :
    (SmartCache.get ⟨[("a", 1, 0)], [("a", 1, 0)], 10⟩ "a" 10).1 = none ∧
    cacheLookup "a" (SmartCache.get ⟨[("a", 1, 0)], [("a", 1, 0)], 10⟩ "a" 10).2.memory
      = none ∧
    cacheLookup "a" (SmartCache.get ⟨[("a", 1, 0)], [("a", 1, 0)], 10⟩ "a" 10).2.disk
      = none :=
  (cache_get_ttl_spec ⟨[("a", 1, 0)], [("a", 1, 0)], 10⟩ "a" 10).2.1 1 0
    (by decide) (by decide)

theorem load_foldl_lookup : ∀ (files : List DiskFile) (init : List (String × Nat × Int))
    (k : String), k ≠ "" →
    cacheLookup k (files.foldl loadFileStep init) =
      (match lastFileFor k files with
       | some f => some (f.payload, f.timestamp)
       | none => cacheLookup k init)
  | [], _, _, _ => rfl
  | f :: fs, init, k, hk => by
      have ih := load_foldl_lookup fs (loadFileStep init f) k hk
      simp only [List.foldl_cons, lastFileFor, ih]
      rcases hlast : lastFileFor k fs with _ | g
      · rcases hkey : f.fileKey with _ | k2
        · simp [loadFileStep, hkey]
        · by_cases hempty : k2 = ""
          · subst hempty
            have hne : (some "" : Option String) ≠ some k := by
              simpa using fun hh => hk hh.symm
            simp [loadFileStep, hkey, hne]
          · by_cases heq : k2 = k
            · subst heq
              simp [loadFileStep, hkey, hempty, cacheLookup_insert_self]
            · have hne : (some k2 : Option String) ≠ some k := by simpa using heq
              simp [loadFileStep, hkey, hempty, hne,
                cacheLookup_insert_ne k k2 (fun hh => heq hh.symm)]
      · simp

/-- C6 (amended): the startup load places every durable entry with a
non-empty key into memory with its stored payload and creation timestamp,
the last duplicate winning; no clock or TTL is consulted at load time, so
entries already expired are loaded rather than purged, and expiry is
enforced only lazily by a later access. -/
theorem load_from_disk_loads_all (files : List DiskFile) (k : String) (hk : k ≠ "") :
    cacheLookup k (load_from_disk files) =
      (match lastFileFor k files with
       | some f => some (f.payload, f.timestamp)
       | none => none) := by
  have h := load_foldl_lookup files [] k hk
  simpa [load_from_disk] using h

theorem load_from_disk_loads_all_witness :
    cacheLookup "A" (load_from_disk [⟨some "A", 0, 1⟩]) = some (1, 0) := by
  rw [load_from_disk_loads_all [⟨some "A", 0, 1⟩] "A" (by decide)]
  decide

/-- C6 counterexample: with TTL 1800 and the load running at time 10000, an
on-disk entry created at time 0 is already expired (age at least the TTL),
yet the startup load places it into memory with its old timestamp instead
of purging it. -/
theorem load_from_disk_keeps_expired :
    (1800 : Int) ≤ 10000 - 0 ∧
    cacheLookup "A" (load_from_disk [⟨some "A", 0, 1⟩]) = some (1, 0) := by
  decide

/-- C5: while the primary has been marked unavailable at time t, a read
before the cooldown has elapsed performs no probe against the primary and
leaves the state untouched; the first read at or after the cooldown performs
exactly one probe, a successful probe restores the primary-active state and
a failed probe keeps it secondary-active with the failure time refreshed to
the probe time; the default cooldown is 300 seconds. -/
theorem failover_cooldown_spec (st : AvailabilityState) (now t : Int) (o : SheetsOutcome)
    (u : Bool) (hdown : st.sheets_available = false)
    (hlast : st.last_sheets_failure = some t) :
    (now - t < st.retry_interval →
        (get_stats_data st now u o).primaryProbes = 0 ∧
        (get_stats_data st now u o).state = st) ∧
    (st.retry_interval ≤ now - t →
        (get_stats_data st now false o).primaryProbes = 1 ∧
        (∀ df, o = .success df →
            (get_stats_data st now false o).state.sheets_available = true ∧
            (get_stats_data st now false o).state.last_sheets_failure = none) ∧
        ((∀ df, o ≠ .success df) →
            (get_stats_data st now false o).state.sheets_available = false ∧
            (get_stats_data st now false o).state.last_sheets_failure = some now)) ∧
    initHybridState.retry_interval = 300 := by
  refine ⟨?_, ?_, rfl⟩
  · intro hcool
    have hret : shouldRetrySheets st now = false := by
      simp only [shouldRetrySheets, hdown, if_false, Bool.false_eq_true, hlast,
        decide_eq_false_iff_not]
      omega
    simp [get_stats_data, hdown, hret]
  · intro hcool
    have hret : shouldRetrySheets st now = true := by
      simp only [shouldRetrySheets, hdown, if_false, Bool.false_eq_true, hlast,
        decide_eq_true_eq]
      omega
    refine ⟨?_, ?_, ?_⟩
    · cases o <;>
        simp [get_stats_data, hdown, hret, get_data_with_timeout, markSheetsSuccess,
          markSheetsFailure]
    · intro df hdf
      subst hdf
      simp [get_stats_data, hdown, hret, get_data_with_timeout, markSheetsSuccess]
    · intro hnd
      cases o with
      | success df => exact absurd rfl (hnd df)
      | timeout =>
          simp [get_stats_data, hdown, hret, get_data_with_timeout, markSheetsFailure]
      | rateLimit =>
          simp [get_stats_data, hdown, hret, get_data_with_timeout, markSheetsFailure]
      | authError =>
          simp [get_stats_data, hdown, hret, get_data_with_timeout, markSheetsFailure]
      | otherError =>
          simp [get_stats_data, hdown, hret, get_data_with_timeout, markSheetsFailure]

theorem failover_cooldown_spec_witness :
    (get_stats_data ⟨false, some 0, 300⟩ 100 false SheetsOutcome.timeout).primaryProbes
      = 0 :=
  ((failover_cooldown_spec ⟨false, some 0, 300⟩ 100 0 SheetsOutcome.timeout false rfl
    rfl).1 (by norm_num)).1

theorem fetchLoop_fatal : ∀ (pre rest : List AttemptResult) (used : Nat),
    (∀ a ∈ pre, a = AttemptResult.retryableError) →
    fetchLoop (pre ++ AttemptResult.fatalError :: rest) used =
      FetchLoopResult.raisedFatal (used + pre.length + 1)
  | [], _, _, _ => rfl
  | a :: pre, rest, used, hpre => by
      have ha : a = AttemptResult.retryableError := hpre a (List.mem_cons_self a pre)
      subst ha
      have ih := fetchLoop_fatal pre rest (used + 1)
        (fun b hb => hpre b (List.mem_cons_of_mem _ hb))
      simp only [List.cons_append, fetchLoop, List.append_eq, ih, List.length_cons]
      congr 1
      omega

/-- C7 (amended): in the sheets-first load path a non-retryable fatal fetch
error is raised immediately after the attempt that produced it, with no
further retry, no cache fallback consulted and the cache untouched; in
HybridDatabaseManager, by contrast, an authorization error is swallowed and
the read fails over to the secondary store (see the counterexample). -/
theorem fatal_error_propagates (pre rest : List AttemptResult) (cache : CacheState)
    (key : String) (legacy : Option (Nat × Int)) (now : Int)
    (hpre : ∀ a ∈ pre, a = AttemptResult.retryableError) :
    (load_data_for_command (pre ++ AttemptResult.fatalError :: rest) cache key legacy
        now).1 = LoadOutcome.raisedFatal ∧
    (load_data_for_command (pre ++ AttemptResult.fatalError :: rest) cache key legacy
        now).2 = cache ∧
    fetchLoop (pre ++ AttemptResult.fatalError :: rest) 0 =
      FetchLoopResult.raisedFatal (pre.length + 1) := by
  have h := fetchLoop_fatal pre rest 0 hpre
  rw [Nat.zero_add] at h
  exact ⟨by simp [load_data_for_command, h], by simp [load_data_for_command, h], h⟩

theorem fatal_error_propagates_witness :
    (load_data_for_command [AttemptResult.retryableError, AttemptResult.fatalError]
        ⟨[], [], 10⟩ "k" none 0).1 = LoadOutcome.raisedFatal :=
  (fatal_error_propagates [AttemptResult.retryableError] [] ⟨[], [], 10⟩ "k" none 0
    (fun a ha => by simpa using ha)).1

/-- C7 counterexample: an authorization failure against the primary inside
get_stats_data does not propagate to the caller: it is swallowed, the
primary is marked unavailable and the read is answered by the secondary
store, that is, a fatal auth error does cause a failover there. -/
theorem auth_error_fails_over :
    (get_stats_data initHybridState 0 false SheetsOutcome.authError).source =
      StatsSource.supabase ∧
    (get_stats_data initHybridState 0 false
      SheetsOutcome.authError).state.sheets_available = false := by
  decide

theorem tieredLookup_get_subset (st : CacheState) (key : String) (now : Int) (k : String)
    (v : Nat × Int)
    (h : tieredLookup (SmartCache.get st key now).2 k = some v) :
    tieredLookup st k = some v := by
  rcases hm : cacheLookup key st.memory with _ | ⟨df0, ts0⟩
  · rcases hd : cacheLookup key st.disk with _ | ⟨df1, ts1⟩
    · simpa [SmartCache.get, hm, hd] using h
    · by_cases hlt : now - ts1 < st.ttl
      · simp only [SmartCache.get, hm, hd, if_pos hlt] at h
        by_cases hk : k = key
        · subst hk
          simp only [tieredLookup, cacheLookup_insert_self] at h
          simp [tieredLookup, hm, hd, h]
        · simpa [tieredLookup, cacheLookup_insert_ne k key hk] using h
      · simp only [SmartCache.get, hm, hd, if_neg hlt] at h
        by_cases hk : k = key
        · subst hk
          simp [tieredLookup, hm, cacheLookup_erase_self] at h
        · simpa [tieredLookup, cacheLookup_erase_ne k key hk] using h
  · by_cases hlt : now - ts0 < st.ttl
    · simpa [SmartCache.get, hm, if_pos hlt] using h
    · simp only [SmartCache.get, hm, if_neg hlt, SmartCache.invalidate] at h
      by_cases hk : k = key
      · subst hk
        simp [tieredLookup, cacheLookup_erase_self] at h
      · simpa [tieredLookup, cacheLookup_erase_ne k key hk] using h

/-- C10 (amended): the orchestrating load writes to the cache only on the
fresh path, where it stores the fetched rows under the key with the current
time as creation timestamp; on every other outcome (cache fallback, legacy
fallback or error) no entry is added and no payload or creation timestamp
is altered -- every entry present afterwards was already present unchanged
before -- the only possible difference being the deletion of an expired
entry by the fallback lookup itself (see the counterexample). -/
theorem load_cache_frame (attempts : List AttemptResult) (cache : CacheState)
    (key : String) (legacy : Option (Nat × Int)) (now : Int) :
    (∀ df, (load_data_for_command attempts cache key legacy now).1 = LoadOutcome.fresh df →
        (load_data_for_command attempts cache key legacy now).2 =
          SmartCache.set cache key df now) ∧
    ((∀ df, (load_data_for_command attempts cache key legacy now).1 ≠ LoadOutcome.fresh df)
      → ∀ k v,
        tieredLookup (load_data_for_command attempts cache key legacy now).2 k = some v →
        tieredLookup cache k = some v) := by
  rcases hfl : fetchLoop attempts 0 with ⟨df0, n⟩ | n | n | used
  · constructor
    · intro df hdf
      simp only [load_data_for_command, hfl] at hdf ⊢
      obtain rfl : df0 = df := by simpa using hdf
      rfl
    · intro hne
      exact absurd (by simp [load_data_for_command, hfl]) (hne df0)
  · refine ⟨fun df hdf => ?_, fun _ k v h => ?_⟩
    · simp [load_data_for_command, hfl] at hdf
    · simpa [load_data_for_command, hfl] using h
  · refine ⟨fun df hdf => ?_, fun _ k v h => ?_⟩
    · simp [load_data_for_command, hfl] at hdf
    · simpa [load_data_for_command, hfl] using h
  · by_cases hz : used = 0
    · refine ⟨fun df hdf => ?_, fun _ k v h => ?_⟩
      · simp [load_data_for_command, hfl, hz] at hdf
      · simpa [load_data_for_command, hfl, hz] using h
    · rcases hg : SmartCache.get cache key now with ⟨res, cache2⟩
      have hc2 : cache2 = (SmartCache.get cache key now).2 := by rw [hg]
      rcases res with _ | ⟨df1, ts1⟩
      · rcases hleg : legacy with _ | ⟨df2, ts2⟩
        · refine ⟨fun df hdf => ?_, fun _ k v h => ?_⟩
          · simp [load_data_for_command, hfl, hz, hg, hleg] at hdf
          · have h2 : tieredLookup cache2 k = some v := by
              simpa [load_data_for_command, hfl, hz, hg, hleg] using h
            exact tieredLookup_get_subset cache key now k v (hc2 ▸ h2)
        · refine ⟨fun df hdf => ?_, fun _ k v h => ?_⟩
          · simp [load_data_for_command, hfl, hz, hg, hleg] at hdf
          · have h2 : tieredLookup cache2 k = some v := by
              simpa [load_data_for_command, hfl, hz, hg, hleg] using h
            exact tieredLookup_get_subset cache key now k v (hc2 ▸ h2)
      · refine ⟨fun df hdf => ?_, fun _ k v h => ?_⟩
        · simp [load_data_for_command, hfl, hz, hg] at hdf
        · have h2 : tieredLookup cache2 k = some v := by
            simpa [load_data_for_command, hfl, hz, hg] using h
          exact tieredLookup_get_subset cache key now k v (hc2 ▸ h2)

theorem load_cache_frame_witness :
    (load_data_for_command [AttemptResult.success 3] ⟨[], [], 10⟩ "k" none 0).2 =
      SmartCache.set ⟨[], [], 10⟩ "k" 3 0 :=
  (load_cache_frame [AttemptResult.success 3] ⟨[], [], 10⟩ "k" none 0).1 3 (by decide)

/-- C10 counterexample: with an expired cached entry under the key, a run
whose five attempts all fail retryably serves the legacy copy with a
warning, yet the cache does not come out unchanged: the fallback lookup
deleted the expired entry. -/
theorem fallback_read_mutates_cache :
    (load_data_for_command (List.replicate 5 AttemptResult.retryableError)
        ⟨[("k", 1, 0)], [("k", 1, 0)], 10⟩ "k" (some (7, 0)) 100).1 =
      LoadOutcome.legacy 7 0 ∧
    (load_data_for_command (List.replicate 5 AttemptResult.retryableError)
        ⟨[("k", 1, 0)], [("k", 1, 0)], 10⟩ "k" (some (7, 0)) 100).2 ≠
      ⟨[("k", 1, 0)], [("k", 1, 0)], 10⟩ := by
  decide

end Mambo
